import Mathlib

/-!
Verification development for the lmcontrol dataset/transform subsystem
(src/src/lmcontrol/nn/dataset.py and its caller src/src/lmcontrol/nn/utils.py).

The embedding is shallow: Python objects become Lean structures, numpy/torch
index arithmetic becomes list operations, stochastic draws (torch.rand,
torch.randint, torch.normal) become explicit arguments recording the drawn
values, and fallible Python code returns `Except String`.  External
collaborators that are not part of the repository sources under src/
(`load_npzs`, `encode_labels` from lmcontrol.data_utils, and
sklearn.model_selection.train_test_split) are modelled from their documented
contracts; each such definition says so in its doc comment.
-/

namespace Lmcontrol

/-- Python dict assignment `d[k] = v` on an association list: replace the
binding in place when the key is present, otherwise append it. -/
def insertAssoc {β : Type} (l : List (String × β)) (k : String) (v : β) :
    List (String × β) :=
  if l.any (fun p => p.1 = k) then l.map (fun p => if p.1 = k then (k, v) else p)
  else l ++ [(k, v)]

/-- numpy fancy indexing `arr[idxs]`: the elements of `l` at the positions
listed in `idxs`, in that order.  Out-of-range positions contribute nothing
(all uses in this file index with positions below the length). -/
def selectIdx {α : Type} (l : List α) (idxs : List ℕ) : List α :=
  idxs.filterMap (fun i => l[i]?)

/-- Modelled from the spec: the label-value encoder primitive `encode_labels`
(lmcontrol.data_utils, not included under src/) in classification mode.  Raw
label values are modelled as integers.  When no class mapping is supplied, a
mapping is derived from the distinct observed raw values by a deterministic
duplicate-removal rule (the spec leaves the exact canonical order open, §9).
When a mapping is supplied, raw values are mapped through it, and a raw value
absent from the supplied mapping is the error condition `UnknownLabelValue`. -/
def encode_labels_classification (vals : List ℤ) (classes : Option (List ℤ)) :
    Except String (List ℕ × List ℤ) :=
  match classes with
  | none =>
      let cs := vals.dedup
      Except.ok (vals.map (fun v => cs.indexOf v), cs)
  | some cs =>
      match vals.mapM (fun v =>
          if v ∈ cs then Except.ok (cs.indexOf v)
          else (Except.error "UnknownLabelValue" : Except String ℕ)) with
      | Except.error e => Except.error e
      | Except.ok idxs => Except.ok (idxs, cs)

/-- Modelled from the spec: `encode_labels` in regression mode converts the
raw values directly to a numeric tensor, with no class mapping. -/
def encode_labels_regression (vals : List ℤ) : List ℤ := vals

/-- `LMDataset.__regression_labels = {'time'}` and `is_regression`
(dataset.py lines 68-72). -/
def LMDataset.is_regression (k : String) : Bool := ["time"].contains k

/-- The state of an `LMDataset` instance (dataset.py lines 66-159) restricted
to the fields the verified claims are about.  Samples are opaque elements of a
list: the rank-4 wrap `data[:, None, :, :]` preserves count and order, so it
does not appear.  The `transform` field is omitted because it never interacts
with labels, paths or splitting. -/
structure LMDatasetState (α : Type) where
  data : List α
  paths : List String
  labels : Option (List (List ℤ))
  label_classes : Option (List (String × Option (List ℤ)))
  label_type : Option (List String)
deriving DecidableEq

/-- The label-encoding loop of `LMDataset.__init__` (dataset.py lines
101-119): iterate over the requested label keys, encode each key's metadata
column as regression or classification, and accumulate the per-key label
tensors (`tmp`) and the class-mapping dict (`lc`, starting from the empty dict
assigned at line 104).  `metadata.lookup k` failing is Python's `KeyError`. -/
def buildLabels (metadata : List (String × List ℤ)) :
    List String → List (List ℤ) → List (String × Option (List ℤ)) →
    Except String (List (List ℤ) × List (String × Option (List ℤ)))
  | [], tmp, lc => Except.ok (tmp, lc)
  | k :: ks, tmp, lc =>
    match metadata.lookup k with
    | none => Except.error "KeyError"
    | some vals =>
      if LMDataset.is_regression k then
        buildLabels metadata ks (tmp ++ [encode_labels_regression vals]) (insertAssoc lc k none)
      else
        match encode_labels_classification vals ((lc.lookup k).join) with
        | Except.error e => Except.error e
        | Except.ok (idxs, cs) =>
          buildLabels metadata ks (tmp ++ [idxs.map Int.ofNat]) (insertAssoc lc k (some cs))

/-- `LMDataset.__init__` up to but excluding the split step (dataset.py lines
74-120).  The npz-path validation and the external `load_npzs` call are
upstream of the modelled state: the function receives the loader's outputs
(`masks`, `images`, `paths`, `metadata`) directly.  `label_type` is received
already normalized to a list (lines 94-95).  Note the faithful modelling of
line 98 (`self.label_classes = label_classes`) followed by line 104
(`self.label_classes = {}` when labels are requested, discarding the supplied
mapping). -/
def LMDataset.buildState {α : Type} (masks images : List α) (paths : List String)
    (metadata : List (String × List ℤ))
    (label_classes : Option (List (String × Option (List ℤ))))
    (use_masks return_labels : Bool) (label_type : List String) :
    Except String (LMDatasetState α) :=
  let data := if use_masks then masks else images
  if return_labels then
    match buildLabels metadata label_type [] [] with
    | Except.error e => Except.error e
    | Except.ok (tmp, lc) =>
      Except.ok { data := data, paths := paths, labels := some tmp,
                  label_classes := some lc, label_type := some label_type }
  else
    Except.ok { data := data, paths := paths, labels := none,
                label_classes := label_classes, label_type := none }

/-- The composite stratification key of each sample (dataset.py lines
129-130): `np.stack` the per-key label tensors along axis 1 and view each row
as a tuple, i.e. sample `i` gets the list of its values across all active
label tensors. -/
def compositeLabels (n : ℕ) (ls : List (List ℤ)) : List (List ℤ) :=
  (List.range n).map (fun i => ls.map (fun l => l.getD i 0))

/-- Modelled from the documented contract of
`sklearn.model_selection.train_test_split` with `stratify=` (an external
library, called at dataset.py lines 132-134): split `indices` into a disjoint,
exhaustive pair `(train, test)` of index lists, where the test size is
`ceil(val_size * n)` (computed on the integer representation of the rational
`val_size`; the two agree for the nonnegative fractions the callers pass, see
`nTest_eq_ceil`) and each composite-label stratum contributes
approximately proportionally to the test set.  It raises when the least
populated stratum has fewer than 2 members, or when either side is smaller
than the number of strata.  The seeded pseudo-random permutation is modelled
by a deterministic selection (within each stratum the earliest members go to
the test side); only determinism for a fixed seed, the partition property and
the error conditions are relied upon by the claims. -/
def sssTestCount (val_size : ℚ) (n : ℕ) : ℕ :=
  ((val_size.num * n + val_size.den - 1) / (val_size.den : ℤ)).toNat

/-- The number of test samples each stratum contributes: the proportional
share `count·nTest/n` rounded down, with the remainder distributed one each to
the first strata in `stratify.dedup` order so the shares sum to `nTest`. -/
def sssAlloc (stratify : List (List ℤ)) (nTest n : ℕ) (c : List ℤ) : ℕ :=
  stratify.count c * nTest / n +
    (if stratify.dedup.indexOf c <
        nTest - (stratify.dedup.map (fun d => stratify.count d * nTest / n)).sum
     then 1 else 0)

/-- Whether the sample at position `p` goes to the test side: the first
`sssAlloc` members of its stratum (in position order) do. -/
def sssIsTest (stratify : List (List ℤ)) (nTest n : ℕ) (p : ℕ) : Bool :=
  decide (((List.range p).filter
      (fun q => stratify.getD q [] = stratify.getD p [])).length
    < sssAlloc stratify nTest n (stratify.getD p []))

def train_test_split (indices : List ℕ) (val_size : ℚ) (seed : ℕ)
    (stratify : List (List ℤ)) : Except String (List ℕ × List ℕ) :=
  if stratify.dedup.any (fun c => stratify.count c < 2) then
    Except.error "The least populated class in y has only 1 member, which is too few"
  else if sssTestCount val_size indices.length < stratify.dedup.length then
    Except.error "The test_size should be greater or equal to the number of classes"
  else if indices.length - sssTestCount val_size indices.length < stratify.dedup.length then
    Except.error "The train_size should be greater or equal to the number of classes"
  else
    Except.ok
      (((List.range indices.length).filter
          (fun p => ! sssIsTest stratify (sssTestCount val_size indices.length)
              indices.length p)).filterMap (fun p => indices[p]?),
       ((List.range indices.length).filter
          (fun p => sssIsTest stratify (sssTestCount val_size indices.length)
              indices.length p)).filterMap (fun p => indices[p]?))

/-- `LMDataset._split_data` (dataset.py lines 125-141).  Iterating over
`self.labels` when labels were never built is Python's `TypeError` on `None`.
Note that only `data` and `labels` are filtered by the selected index set;
`paths` is left untouched, and any `split` value other than the exact strings
"train" and "validate" falls through both branches leaving the state as is. -/
def LMDataset._split_data {α : Type} (st : LMDatasetState α) (split : Option String)
    (val_size : ℚ) (seed : ℕ) : Except String (LMDatasetState α) :=
  match st.labels with
  | none => Except.error "TypeError: NoneType object is not iterable"
  | some ls =>
    match train_test_split (List.range st.data.length) val_size seed
        (compositeLabels st.data.length ls) with
    | Except.error e => Except.error e
    | Except.ok (tr, va) =>
      if split = some "train" then
        Except.ok { st with data := selectIdx st.data tr,
                            labels := some (ls.map (fun l => selectIdx l tr)) }
      else if split = some "validate" then
        Except.ok { st with data := selectIdx st.data va,
                            labels := some (ls.map (fun l => selectIdx l va)) }
      else Except.ok st

/-- `LMDataset.__init__` (dataset.py lines 74-123): build the state, then, if
`val_size` is truthy (not `None` and not zero), run the one-time split. -/
def LMDataset.init {α : Type} (masks images : List α) (paths : List String)
    (metadata : List (String × List ℤ))
    (label_classes : Option (List (String × Option (List ℤ))))
    (use_masks return_labels : Bool) (label_type : List String)
    (split : Option String) (val_size : Option ℚ) (seed : ℕ) :
    Except String (LMDatasetState α) :=
  match LMDataset.buildState masks images paths metadata label_classes
      use_masks return_labels label_type, val_size with
  | Except.error e, _ => Except.error e
  | Except.ok st, none => Except.ok st
  | Except.ok st, some v =>
    if v = 0 then Except.ok st else LMDataset._split_data st split v seed

/-- `LMDataset.index_to_filename` (dataset.py lines 157-159): the path stored
at position `i` of the (never filtered) `paths` sequence.  Out-of-range access
is modelled with a default; all uses in this file stay in range. -/
def LMDataset.index_to_filename {α : Type} (dataset : LMDatasetState α) (i : ℕ) : String :=
  dataset.paths.getD i ""

/-- The `sigma` argument of `GaussianNoise.__init__` (dataset.py line 25): a
fixed signal-to-noise divisor, or a tuple giving a half-open range an integer
divisor is sampled from. -/
inductive SigmaArg
  | fixed (snr : ℚ)
  | range (lo hi : ℕ)
deriving DecidableEq

/-- The constructor arguments of `GaussianNoise` (dataset.py lines 25-28). -/
structure GaussianNoiseCfg where
  p : ℚ
  sigma : SigmaArg
deriving DecidableEq

/-- `torch.randint(low, high, size=(1,))` for a given draw of the underlying
generator: an integer in the half-open range `[lo, hi)`. -/
def torchRandint (lo hi draw : ℕ) : ℕ := lo + draw % (hi - lo)

/-- `sample.to(float).mean()` over all elements of the tensor. -/
def tensorMean {ι : Type} [Fintype ι] (sample : ι → ℚ) : ℚ :=
  (∑ i, sample i) / (Fintype.card ι : ℚ)

/-- `GaussianNoise.__call__` (dataset.py lines 30-41).  The stochastic draws
are explicit arguments: `coin` is the value of `torch.rand(1)[0]`, `rint` the
underlying draw of `torch.randint`, and `normalDraw sigma` the per-pixel
tensor drawn by `torch.normal(torch.zeros(sample.shape), sigma)` — a zero-mean
Gaussian sampler whose standard-deviation parameter is `sigma`; the embedding
records which parameter is handed to it.  Pixel values are rationals; when the
sample dtype is uint8 the drawn noise is passed through the uint8 cast
`castU8` (`noise.to(torch.uint8)`) before the addition. -/
def GaussianNoise.call {ι : Type} [Fintype ι] (cfg : GaussianNoiseCfg)
    (isUint8 : Bool) (castU8 : ℚ → ℚ) (coin : ℚ) (rint : ℕ)
    (normalDraw : ℚ → ι → ℚ) (sample : ι → ℚ) : ι → ℚ :=
  if coin < cfg.p then
    let mu := tensorMean sample
    let snr : ℚ :=
      match cfg.sigma with
      | SigmaArg.fixed s => s
      | SigmaArg.range lo hi => (torchRandint lo hi rint : ℚ)
    let sigma := |mu| / snr
    let noise := normalDraw sigma
    let noise := if isUint8 then fun i => castU8 (noise i) else noise
    fun i => sample i + noise i
  else sample

end Lmcontrol

namespace Lmcontrol

/-- The axis-reversing helper `Norm.T` (dataset.py lines 50-57) together with
torch broadcasting makes `Norm.__call__` subtract, from every entry, the mean
taken over the trailing two (spatial) axes of the same sample: reversing all
axes puts the spatial axes first and aligns the mean tensor (whose shape is
exactly the leading axes) against the reversed trailing axes.  The embedding
therefore represents a tensor of arbitrary rank `≥ 2` as a function
`ι → Fin h → Fin w → ℝ`, where `ι` is the product of all leading
(batch/channel) axes — any number of leading dimensions, including none
(`ι` a one-element type) — and models the subtraction per leading index. -/
noncomputable def spatialMean {ι : Type} [Fintype ι] {h w : ℕ}
    (x : ι → Fin h → Fin w → ℝ) (b : ι) : ℝ :=
  (∑ i, ∑ j, x b i j) / ((h * w : ℕ) : ℝ)

/-- `torch.std(·, dim=(-2, -1))` with the default Bessel correction: the
square root of the sum of squared deviations over the spatial axes divided by
`h*w - 1`, per leading index. -/
noncomputable def spatialStd {ι : Type} [Fintype ι] {h w : ℕ}
    (x : ι → Fin h → Fin w → ℝ) (b : ι) : ℝ :=
  Real.sqrt ((∑ i, ∑ j, (x b i j - spatialMean x b) ^ 2) / (((h * w : ℕ) : ℝ) - 1))

/-- The intermediate `ret` of `Norm.__call__` (dataset.py line 60): the sample
with its per-sample spatial mean subtracted. -/
noncomputable def Norm.centered {ι : Type} [Fintype ι] {h w : ℕ}
    (x : ι → Fin h → Fin w → ℝ) : ι → Fin h → Fin w → ℝ :=
  fun b i j => x b i j - spatialMean x b

/-- `Norm.__call__` (dataset.py lines 59-63): subtract the per-sample spatial
mean, and when `scale` is set (the default) divide by the per-sample spatial
standard deviation of the centered tensor. -/
noncomputable def Norm.call {ι : Type} [Fintype ι] {h w : ℕ} (scale : Bool)
    (x : ι → Fin h → Fin w → ℝ) : ι → Fin h → Fin w → ℝ :=
  if scale then fun b i j => Norm.centered x b i j / spatialStd (Norm.centered x) b
  else Norm.centered x

/-- The value registered under each key of the `TRANSFORMS` dict (dataset.py
lines 168-178), with the numeric constructor arguments used there.  The
torchvision primitives themselves are external; composition claims quantify
over an arbitrary interpretation of these entries. -/
inductive RegEntry
  | blur (kernel : ℕ) (sigmaLo sigmaHi : ℚ)
  | rotate (degrees : ℕ)
  | crop (height width : ℕ)
  | hflip (p : ℚ)
  | vflip (p : ℚ)
  | noise (cfg : GaussianNoiseCfg)
  | rgb
  | float
  | norm (scale : Bool)
deriving DecidableEq

/-- The fixed `TRANSFORMS` registry (dataset.py lines 168-178).  `noise` is
`GaussianNoise(sigma=(10, 12))` with the default `p=0.5`; `norm` is `Norm()`
with the default `scale=True`. -/
def TRANSFORMS : List (String × RegEntry) :=
  [("blur", RegEntry.blur 3 (1/100) 1),
   ("rotate", RegEntry.rotate 180),
   ("crop", RegEntry.crop 64 64),
   ("hflip", RegEntry.hflip (1/2)),
   ("vflip", RegEntry.vflip (1/2)),
   ("noise", RegEntry.noise ⟨1/2, SigmaArg.range 10 12⟩),
   ("rgb", RegEntry.rgb),
   ("float", RegEntry.float),
   ("norm", RegEntry.norm true)]

/-- The lookup loop body of `get_transforms` (dataset.py lines 207-210):
resolve the requested keys in order, raising on the first key outside the
registry (the message keeps the typo of the source). -/
def resolveTfms : List String → Except String (List RegEntry)
  | [] => Except.ok []
  | t :: ts =>
    match TRANSFORMS.lookup t with
    | none => Except.error "Unrecognozed transform"
    | some e =>
      match resolveTfms ts with
      | Except.error msg => Except.error msg
      | Except.ok es => Except.ok (e :: es)

/-- The shape of the value returned by `get_transforms` (dataset.py lines
204-211): the identity lambda, a single registered transform, or a
`T.Compose` pipeline. -/
inductive Pipeline
  | identity
  | single (e : RegEntry)
  | composed (es : List RegEntry)
deriving DecidableEq

/-- `get_transforms` (dataset.py lines 181-211). -/
def get_transforms (names : List String) : Except String Pipeline :=
  if names.length = 0 then Except.ok Pipeline.identity
  else
    match resolveTfms names with
    | Except.error msg => Except.error msg
    | Except.ok ret =>
      match ret with
      | [t] => Except.ok (Pipeline.single t)
      | ts => Except.ok (Pipeline.composed ts)

/-- Running a returned pipeline on a sample, given an interpretation `interp`
of the registered primitives as tensor functions: the identity lambda returns
its input, a single transform is applied directly, and `T.Compose` applies
each transform in the given order to the output of the previous one. -/
def runPipeline {τ : Type} (interp : RegEntry → τ → τ) : Pipeline → τ → τ
  | Pipeline.identity, x => x
  | Pipeline.single e, x => interp e x
  | Pipeline.composed es, x => es.foldl (fun acc e => interp e acc) x

/-! Supporting lemmas. -/

theorem ediv_shift (q r d : ℤ) (hd : 0 < d) (hr0 : 0 ≤ r) (hrd : r < d) :
    (d * q + r + d - 1) / d = -((-(d * q + r)) / d) := by
  have h1 : d * q + r + d - 1 = (r + d - 1) + q * d := by ring
  have h2 : -(d * q + r) = (-r) + (-q) * d := by ring
  rw [h1, Int.add_mul_ediv_right _ _ hd.ne', h2, Int.add_mul_ediv_right _ _ hd.ne']
  rcases eq_or_lt_of_le hr0 with h | h
  · have e1 : (r + d - 1) / d = 0 := Int.ediv_eq_zero_of_lt (by omega) (by omega)
    have e2 : (-r) / d = 0 := Int.ediv_eq_zero_of_lt (by omega) (by omega)
    rw [e1, e2]; ring
  · have e1 : r + d - 1 = (r - 1) + 1 * d := by ring
    have e2 : -r = (d - r) + (-1) * d := by ring
    rw [e1, Int.add_mul_ediv_right _ _ hd.ne', e2, Int.add_mul_ediv_right _ _ hd.ne']
    have e3 : (r - 1) / d = 0 := Int.ediv_eq_zero_of_lt (by omega) (by omega)
    have e4 : (d - r) / d = 0 := Int.ediv_eq_zero_of_lt (by omega) (by omega)
    rw [e3, e4]; ring

/-- The integer-representation test-set size used by `train_test_split` is
exactly `⌈val_size * n⌉`: the model computes the same count sklearn documents
for a fractional `test_size`. -/
theorem nTest_eq_ceil (v : ℚ) (n : ℕ) :
    sssTestCount v n = (Int.ceil (v * n)).toNat := by
  unfold sssTestCount
  congr 1
  have hd : (0:ℤ) < (v.den : ℤ) := by exact_mod_cast v.den_pos
  have hx : (v * n : ℚ) = ((v.num * n : ℤ) : ℚ) / ((v.den : ℕ) : ℚ) := by
    conv_lhs => rw [← Rat.num_div_den v]
    push_cast
    ring
  have hceil : Int.ceil (v * n) = -Int.floor (-(v * (n : ℚ))) := by
    rw [Int.floor_neg, neg_neg]
  have hneg : -(v * (n : ℚ)) = (((-(v.num * n) : ℤ)) : ℚ) / ((v.den : ℕ) : ℚ) := by
    rw [hx]; push_cast; ring
  rw [hceil, hneg, Rat.floor_intCast_div_natCast]
  have h := ediv_shift (v.num * n / v.den) ((v.num * n) % v.den) (v.den : ℤ) hd
    (Int.emod_nonneg _ hd.ne') (Int.emod_lt_of_pos _ hd)
  rw [Int.ediv_add_emod (v.num * n) (v.den : ℤ)] at h
  exact h

theorem length_filter_add_length_filter_not {α : Type} (l : List α) (p : α → Bool) :
    (l.filter p).length + (l.filter (fun a => ! p a)).length = l.length := by
  induction l with
  | nil => rfl
  | cons a as ih =>
    cases h : p a <;> simp [List.filter_cons, h, ← ih] <;> omega

theorem disjoint_filter_not {α : Type} (l : List α) (p : α → Bool) :
    (l.filter p).Disjoint (l.filter (fun a => ! p a)) := by
  intro a h1 h2
  rw [List.mem_filter] at h1 h2
  rw [h1.2] at h2
  exact absurd h2.2 (by simp)

theorem filterMap_getElem_range (n : ℕ) (l : List ℕ) (hl : ∀ p ∈ l, p < n) :
    l.filterMap (fun p => (List.range n)[p]?) = l := by
  induction l with
  | nil => rfl
  | cons a as ih =>
    rw [List.filterMap_cons]
    rw [List.getElem?_range (hl a (List.mem_cons_self a as))]
    rw [ih (fun p hp => hl p (List.mem_cons_of_mem a hp))]

theorem selectIdx_length {α : Type} (l : List α) (idxs : List ℕ)
    (h : ∀ i ∈ idxs, i < l.length) : (selectIdx l idxs).length = idxs.length := by
  induction idxs with
  | nil => rfl
  | cons a as ih =>
    rw [selectIdx, List.filterMap_cons]
    rw [List.getElem?_eq_getElem (h a (List.mem_cons_self a as))]
    simp only [List.length_cons]
    rw [← selectIdx, ih (fun i hi => h i (List.mem_cons_of_mem a hi))]

/-- A successful stratified split of the index array `arange n` is a genuine
partition: the lengths of the two sides add up to `n`, the sides are
disjoint, and every selected index is in range. -/
theorem train_test_split_range_ok {n : ℕ} {v : ℚ} {s : ℕ} {strat : List (List ℤ)}
    {tr va : List ℕ}
    (h : train_test_split (List.range n) v s strat = Except.ok (tr, va)) :
    tr.length + va.length = n ∧ tr.Disjoint va
    ∧ (∀ i ∈ tr, i < n) ∧ (∀ i ∈ va, i < n) := by
  simp only [train_test_split, List.length_range] at h
  split at h
  · exact absurd h (by simp)
  · split at h
    · exact absurd h (by simp)
    · split at h
      · exact absurd h (by simp)
      · simp only [Except.ok.injEq, Prod.mk.injEq] at h
        obtain ⟨rfl, rfl⟩ := h
        have hb1 : ∀ p ∈ (List.range n).filter
            (fun p => ! sssIsTest strat (sssTestCount v n) n p), p < n := by
          intro p hp
          exact List.mem_range.mp (List.mem_of_mem_filter hp)
        have hb2 : ∀ p ∈ (List.range n).filter
            (fun p => sssIsTest strat (sssTestCount v n) n p), p < n := by
          intro p hp
          exact List.mem_range.mp (List.mem_of_mem_filter hp)
        rw [filterMap_getElem_range n _ hb1, filterMap_getElem_range n _ hb2]
        refine ⟨?_, ?_, hb1, hb2⟩
        · have hlen := length_filter_add_length_filter_not (List.range n)
            (fun p => sssIsTest strat (sssTestCount v n) n p)
          simp only [List.length_range] at hlen
          omega
        · exact (disjoint_filter_not (List.range n) _).symm

/-- Inversion of a successful `_split_data` with `split="train"`: the labels
were present, the stratified split succeeded, and the result keeps the paths
while filtering `data` and `labels` by the train indices. -/
theorem split_data_train_ok {α : Type} {st dt : LMDatasetState α} {v : ℚ} {seed : ℕ}
    (h : LMDataset._split_data st (some "train") v seed = Except.ok dt) :
    ∃ ls tr va, st.labels = some ls
      ∧ train_test_split (List.range st.data.length) v seed
          (compositeLabels st.data.length ls) = Except.ok (tr, va)
      ∧ dt = { st with data := selectIdx st.data tr,
                       labels := some (ls.map (fun l => selectIdx l tr)) } := by
  unfold LMDataset._split_data at h
  split at h
  · exact absurd h (by simp)
  · rename_i ls hls
    split at h
    · exact absurd h (by simp)
    · rename_i tv tr va htts
      rw [if_pos rfl] at h
      simp only [Except.ok.injEq] at h
      exact ⟨ls, tr, va, hls, htts, h.symm⟩

/-- Inversion of a successful `_split_data` with `split="validate"`. -/
theorem split_data_validate_ok {α : Type} {st dv : LMDatasetState α} {v : ℚ} {seed : ℕ}
    (h : LMDataset._split_data st (some "validate") v seed = Except.ok dv) :
    ∃ ls tr va, st.labels = some ls
      ∧ train_test_split (List.range st.data.length) v seed
          (compositeLabels st.data.length ls) = Except.ok (tr, va)
      ∧ dv = { st with data := selectIdx st.data va,
                       labels := some (ls.map (fun l => selectIdx l va)) } := by
  unfold LMDataset._split_data at h
  split at h
  · exact absurd h (by simp)
  · rename_i ls hls
    split at h
    · exact absurd h (by simp)
    · rename_i tv tr va htts
      rw [if_neg (by decide), if_pos rfl] at h
      simp only [Except.ok.injEq] at h
      exact ⟨ls, tr, va, hls, htts, h.symm⟩

/-- Inversion of a successful `__init__` with a truthy `val_size`: the state
was built and then split. -/
theorem init_ok_inv {α : Type} {masks images : List α} {paths : List String}
    {metadata : List (String × List ℤ)}
    {label_classes : Option (List (String × Option (List ℤ)))}
    {use_masks return_labels : Bool} {label_type : List String}
    {split : Option String} {v : ℚ} {seed : ℕ} {d : LMDatasetState α} (hv : v ≠ 0)
    (h : LMDataset.init masks images paths metadata label_classes use_masks
        return_labels label_type split (some v) seed = Except.ok d) :
    ∃ st0, LMDataset.buildState masks images paths metadata label_classes use_masks
        return_labels label_type = Except.ok st0
      ∧ LMDataset._split_data st0 split v seed = Except.ok d := by
  unfold LMDataset.init at h
  split at h
  · exact absurd h (by simp)
  · rename_i heq
    exact absurd heq (by simp)
  · rename_i st0 v2 hb heq
    obtain rfl : v = v2 := Option.some.inj heq
    rw [if_neg hv] at h
    exact ⟨st0, hb, h⟩

theorem resolveTfms_length (names : List String) (es : List RegEntry)
    (h : resolveTfms names = Except.ok es) : es.length = names.length := by
  induction names generalizing es with
  | nil =>
    unfold resolveTfms at h
    simp only [Except.ok.injEq] at h
    rw [← h]
    rfl
  | cons a as ih =>
    unfold resolveTfms at h
    split at h
    · exact absurd h (by simp)
    · split at h
      · exact absurd h (by simp)
      · rename_i e he es2 hes
        simp only [Except.ok.injEq] at h
        rw [← h]
        simp [ih es2 hes]

theorem resolveTfms_unknown (names : List String) (n : String)
    (hmem : n ∈ names) (hlook : TRANSFORMS.lookup n = none) :
    ∃ msg, resolveTfms names = Except.error msg := by
  induction names with
  | nil => exact absurd hmem (by simp)
  | cons a as ih =>
    unfold resolveTfms
    rcases List.mem_cons.mp hmem with rfl | hmem2
    · rw [hlook]
      exact ⟨_, rfl⟩
    · cases hla : TRANSFORMS.lookup a with
      | none => exact ⟨_, rfl⟩
      | some e =>
        obtain ⟨msg, hmsg⟩ := ih hmem2
        rw [hmsg]
        exact ⟨msg, rfl⟩

/-! Claim theorems. -/

/-- C1: the claim says a supplied `label_classes` mapping is reused for
classification encoding and is what the instance ends up holding.  The code
does the opposite: `__init__` line 104 resets `self.label_classes` to the
empty dict before the encoding loop, so the supplied mapping
`{"ht": [100, 200, 300]}` is never consulted, a fresh mapping `[200, 100]` is
derived from the observed values, and the encoding is `[0, 1]` instead of the
`[1, 0]` the supplied mapping dictates.  This theorem evaluates the embedded
constructor at that failing input and records that the mapping the instance
holds differs from the supplied one. -/
theorem supplied_label_classes_ignored :
    (LMDataset.init [1, 2] [1, 2] ["a.npz", "b.npz"] [("ht", [200, 100])]
        (some [("ht", some [100, 200, 300])]) false true ["ht"] none none 0
        : Except String (LMDatasetState ℕ))
      = Except.ok ⟨[1, 2], ["a.npz", "b.npz"], some [[0, 1]],
          some [("ht", some [200, 100])], some ["ht"]⟩
    ∧ (some [("ht", some ([200, 100] : List ℤ))]
        : Option (List (String × Option (List ℤ))))
      ≠ some [("ht", some [100, 200, 300])] :=
  ⟨rfl, by decide⟩

/-- C2: the claim says `len(data) == len(paths)` holds at all times and that
`index_to_filename` stays correct after a split.  The code filters only
`data` and `labels` in `_split_data`, never `paths`: after a train split of
4 samples (labels `[5,5,7,7]`, `val_size=1/2`) the dataset holds 2 samples
but still 4 paths, and `index_to_filename(0)` returns `p0.npz` even though
the sample now at index 0 was loaded from `p1.npz`.  This theorem evaluates
the embedded code at that failing input. -/
theorem split_leaves_paths_unfiltered :
    (LMDataset.init [10, 11, 12, 13] [10, 11, 12, 13]
        ["p0.npz", "p1.npz", "p2.npz", "p3.npz"] [("ht", [5, 5, 7, 7])] none
        false true ["ht"] (some "train") (some (mkRat 1 2)) 0
        : Except String (LMDatasetState ℕ))
      = Except.ok ⟨[11, 13], ["p0.npz", "p1.npz", "p2.npz", "p3.npz"],
          some [[0, 1]], some [("ht", some [5, 7])], some ["ht"]⟩
    ∧ (⟨[11, 13], ["p0.npz", "p1.npz", "p2.npz", "p3.npz"], some [[0, 1]],
          some [("ht", some [5, 7])], some ["ht"]⟩ : LMDatasetState ℕ).data.length
      ≠ (⟨[11, 13], ["p0.npz", "p1.npz", "p2.npz", "p3.npz"], some [[0, 1]],
          some [("ht", some [5, 7])], some ["ht"]⟩ : LMDatasetState ℕ).paths.length
    ∧ LMDataset.index_to_filename
        (⟨[11, 13], ["p0.npz", "p1.npz", "p2.npz", "p3.npz"], some [[0, 1]],
          some [("ht", some [5, 7])], some ["ht"]⟩ : LMDatasetState ℕ) 0 = "p0.npz" :=
  ⟨rfl, by decide, rfl⟩

/-- C3: for a fixed seed and a valid validation fraction, building the same
dataset once with `split="train"` and once with `split="validate"` yields
sizes that add up to the full dataset, and the underlying index sets of the
(one deterministic) stratified split are disjoint. -/
theorem split_partition {α : Type} (masks images : List α) (paths : List String)
    (metadata : List (String × List ℤ))
    (label_classes : Option (List (String × Option (List ℤ))))
    (use_masks return_labels : Bool) (label_type : List String)
    (v : ℚ) (seed : ℕ) (dt dv df : LMDatasetState α) (hv : v ≠ 0)
    (h1 : LMDataset.init masks images paths metadata label_classes use_masks
        return_labels label_type (some "train") (some v) seed = Except.ok dt)
    (h2 : LMDataset.init masks images paths metadata label_classes use_masks
        return_labels label_type (some "validate") (some v) seed = Except.ok dv)
    (h3 : LMDataset.init masks images paths metadata label_classes use_masks
        return_labels label_type none none seed = Except.ok df) :
    dt.data.length + dv.data.length = df.data.length
    ∧ ∃ tr va,
        train_test_split (List.range df.data.length) v seed
            (compositeLabels df.data.length (df.labels.getD [])) = Except.ok (tr, va)
        ∧ tr.Disjoint va ∧ dt.data.length = tr.length ∧ dv.data.length = va.length := by
  obtain ⟨st1, hb1, hs1⟩ := init_ok_inv hv h1
  obtain ⟨st2, hb2, hs2⟩ := init_ok_inv hv h2
  have hdf : LMDataset.buildState masks images paths metadata label_classes use_masks
      return_labels label_type = Except.ok df := by
    unfold LMDataset.init at h3
    split at h3
    · exact absurd h3 (by simp)
    · rename_i st0 hb heq
      simp only [Except.ok.injEq] at h3
      rw [← h3]
      exact hb
    · rename_i heq
      exact absurd heq (by simp)
  rw [hdf] at hb1 hb2
  simp only [Except.ok.injEq] at hb1 hb2
  subst hb1
  subst hb2
  obtain ⟨ls1, tr1, va1, hls1, htts1, hdt⟩ := split_data_train_ok hs1
  obtain ⟨ls2, tr2, va2, hls2, htts2, hdv⟩ := split_data_validate_ok hs2
  rw [hls1] at hls2
  obtain rfl : ls1 = ls2 := Option.some.inj hls2
  rw [htts1] at htts2
  obtain ⟨rfl, rfl⟩ : tr1 = tr2 ∧ va1 = va2 := by
    have hpair := Except.ok.inj htts2
    exact ⟨congrArg Prod.fst hpair, congrArg Prod.snd hpair⟩
  obtain ⟨hsum, hdisj, htrb, hvab⟩ := train_test_split_range_ok htts1
  have hdtlen : dt.data.length = tr1.length := by
    rw [hdt]
    exact selectIdx_length _ _ (fun i hi => htrb i hi)
  have hdvlen : dv.data.length = va1.length := by
    rw [hdv]
    exact selectIdx_length _ _ (fun i hi => hvab i hi)
  refine ⟨by omega, tr1, va1, ?_, hdisj, hdtlen, hdvlen⟩
  rw [hls1]
  exact htts1

/-- C3 witness: a concrete 4-sample dataset, two strata of two samples each,
`val_size = 1/2`: the train instance gets 2 samples, the validate instance 2,
the full one 4, and the index sets `[1,3]` and `[0,2]` are disjoint. -/
theorem split_partition_witness :
    (⟨[11, 13], ["p0.npz", "p1.npz", "p2.npz", "p3.npz"], some [[0, 1]],
        some [("ht", some [5, 7])], some ["ht"]⟩ : LMDatasetState ℕ).data.length
      + (⟨[10, 12], ["p0.npz", "p1.npz", "p2.npz", "p3.npz"], some [[0, 1]],
          some [("ht", some [5, 7])], some ["ht"]⟩ : LMDatasetState ℕ).data.length
      = (⟨[10, 11, 12, 13], ["p0.npz", "p1.npz", "p2.npz", "p3.npz"],
          some [[0, 0, 1, 1]], some [("ht", some [5, 7])],
          some ["ht"]⟩ : LMDatasetState ℕ).data.length
    ∧ ∃ tr va,
        train_test_split
            (List.range (⟨[10, 11, 12, 13], ["p0.npz", "p1.npz", "p2.npz", "p3.npz"],
                some [[0, 0, 1, 1]], some [("ht", some [5, 7])],
                some ["ht"]⟩ : LMDatasetState ℕ).data.length)
            (mkRat 1 2) 0
            (compositeLabels (⟨[10, 11, 12, 13], ["p0.npz", "p1.npz", "p2.npz", "p3.npz"],
                some [[0, 0, 1, 1]], some [("ht", some [5, 7])],
                some ["ht"]⟩ : LMDatasetState ℕ).data.length
              ((⟨[10, 11, 12, 13], ["p0.npz", "p1.npz", "p2.npz", "p3.npz"],
                some [[0, 0, 1, 1]], some [("ht", some [5, 7])],
                some ["ht"]⟩ : LMDatasetState ℕ).labels.getD []))
          = Except.ok (tr, va)
        ∧ tr.Disjoint va
        ∧ (⟨[11, 13], ["p0.npz", "p1.npz", "p2.npz", "p3.npz"], some [[0, 1]],
            some [("ht", some [5, 7])], some ["ht"]⟩ : LMDatasetState ℕ).data.length = tr.length
        ∧ (⟨[10, 12], ["p0.npz", "p1.npz", "p2.npz", "p3.npz"], some [[0, 1]],
            some [("ht", some [5, 7])], some ["ht"]⟩ : LMDatasetState ℕ).data.length = va.length :=
  split_partition [10, 11, 12, 13] [10, 11, 12, 13]
    ["p0.npz", "p1.npz", "p2.npz", "p3.npz"] [("ht", [5, 5, 7, 7])] none false true
    ["ht"] (mkRat 1 2) 0 _ _ _ (by decide) (by rfl) (by rfl) (by rfl)

/-- C4: when some composite-key stratum has fewer than two members, the split
operation fails with an error (sklearn's stratification error) instead of
silently degrading to a non-stratified split. -/
theorem split_small_stratum_error {α : Type} (st : LMDatasetState α)
    (ls : List (List ℤ)) (split : Option String) (v : ℚ) (seed : ℕ)
    (hls : st.labels = some ls)
    (hsmall : ∃ c ∈ compositeLabels st.data.length ls,
        (compositeLabels st.data.length ls).count c < 2) :
    ∃ msg, LMDataset._split_data st split v seed = Except.error msg := by
  obtain ⟨c, hc, hcount⟩ := hsmall
  refine ⟨"The least populated class in y has only 1 member, which is too few", ?_⟩
  unfold LMDataset._split_data
  rw [hls]
  unfold train_test_split
  have hany : (compositeLabels st.data.length ls).dedup.any
      (fun d => decide ((compositeLabels st.data.length ls).count d < 2)) = true := by
    rw [List.any_eq_true]
    exact ⟨c, List.mem_dedup.mpr hc, by simpa using hcount⟩
  simp [hany]

/-- C4 witness: 3 samples whose composite labels form 3 singleton strata with
`val_size = 0.3` make the split fail. -/
theorem split_small_stratum_error_witness :
    ∃ msg, LMDataset._split_data
        (⟨[(1:ℕ), 2, 3], ["a.npz", "b.npz", "c.npz"], some [[0, 1, 2]], none,
          some ["ht"]⟩ : LMDatasetState ℕ) (some "train") (mkRat 3 10) 0
      = Except.error msg :=
  split_small_stratum_error _ [[0, 1, 2]] (some "train") (mkRat 3 10) 0 rfl
    (by decide)

/-- C9: any `split` value other than the exact strings "train" and
"validate" — e.g. `None` or the string "validation" that `get_loaders`
passes — falls through both branches of `_split_data`: the partition is
computed but `data` and `labels` (and everything else) stay the full set and
no error is raised. -/
theorem split_data_other_split_noop {α : Type} (st : LMDatasetState α)
    (ls : List (List ℤ)) (split : Option String) (v : ℚ) (seed : ℕ)
    (tr va : List ℕ)
    (hls : st.labels = some ls)
    (hok : train_test_split (List.range st.data.length) v seed
        (compositeLabels st.data.length ls) = Except.ok (tr, va))
    (hnt : split ≠ some "train") (hnv : split ≠ some "validate") :
    LMDataset._split_data st split v seed = Except.ok st := by
  unfold LMDataset._split_data
  simp only [hls, hok, if_neg hnt, if_neg hnv]

/-- C9 witness: a 4-sample dataset requested with `split="validation"` (the
misspelling `get_loaders` uses) silently receives the full dataset. -/
theorem split_data_other_split_noop_witness :
    LMDataset._split_data
        (⟨[(1:ℕ), 2, 3, 4], ["a.npz", "b.npz", "c.npz", "d.npz"],
          some [[0, 0, 1, 1]], none, none⟩ : LMDatasetState ℕ)
        (some "validation") (mkRat 1 2) 0
      = Except.ok ⟨[(1:ℕ), 2, 3, 4], ["a.npz", "b.npz", "c.npz", "d.npz"],
          some [[0, 0, 1, 1]], none, none⟩ :=
  split_data_other_split_noop _ [[0, 0, 1, 1]] (some "validation") (mkRat 1 2) 0
    [1, 3] [0, 2] rfl rfl (by decide) (by decide)

/-- C10: requesting a truthy `val_size` with `return_labels=False` always
fails: `_split_data` iterates over `self.labels`, which is `None` when labels
were not requested, so construction raises (Python's `TypeError`). -/
theorem init_val_size_without_labels_fails {α : Type} (masks images : List α)
    (paths : List String) (metadata : List (String × List ℤ))
    (label_classes : Option (List (String × Option (List ℤ))))
    (use_masks : Bool) (label_type : List String) (split : Option String)
    (v : ℚ) (seed : ℕ) (hv : v ≠ 0) :
    LMDataset.init masks images paths metadata label_classes use_masks false
        label_type split (some v) seed
      = Except.error "TypeError: NoneType object is not iterable" := by
  simp [LMDataset.init, LMDataset.buildState, LMDataset._split_data, hv]

/-- C10 witness: a concrete one-sample dataset with `val_size = 0.1` and no
labels fails at construction. -/
theorem init_val_size_without_labels_fails_witness :
    LMDataset.init [(1:ℕ)] [1] ["p.npz"] [] none false false [] none
        (some (mkRat 1 10)) 0
      = Except.error "TypeError: NoneType object is not iterable" :=
  init_val_size_without_labels_fails [(1:ℕ)] [1] ["p.npz"] [] none false [] none
    (mkRat 1 10) 0 (by decide)

/-- C7: `get_transforms` returns the identity function for zero names, the
single registered transform for one name, and otherwise the ordered
composition; running the composition applies each named transform, in the
given order, to the output of the previous one (the `foldl` equation and the
snoc law), for any interpretation of the registered primitives. -/
theorem get_transforms_spec {τ : Type} (interp : RegEntry → τ → τ) (x : τ)
    (n : String) (e : RegEntry) (names : List String) (es : List RegEntry)
    (h1 : TRANSFORMS.lookup n = some e)
    (h2 : resolveTfms names = Except.ok es) (h3 : 2 ≤ names.length) :
    (get_transforms [] = Except.ok Pipeline.identity
      ∧ runPipeline interp Pipeline.identity x = x)
    ∧ (get_transforms [n] = Except.ok (Pipeline.single e)
      ∧ runPipeline interp (Pipeline.single e) x = interp e x)
    ∧ (get_transforms names = Except.ok (Pipeline.composed es)
      ∧ runPipeline interp (Pipeline.composed es) x
          = es.foldl (fun acc t => interp t acc) x
      ∧ ∀ t, runPipeline interp (Pipeline.composed (es ++ [t])) x
          = interp t (runPipeline interp (Pipeline.composed es) x)) := by
  refine ⟨⟨rfl, rfl⟩, ⟨?_, rfl⟩, ⟨?_, rfl, ?_⟩⟩
  · unfold get_transforms
    rw [if_neg (by simp)]
    unfold resolveTfms
    rw [h1]
    rfl
  · unfold get_transforms
    rw [if_neg (by omega), h2]
    have hlen : es.length = names.length := resolveTfms_length names es h2
    rw [← hlen] at h3
    rcases es with _ | ⟨e1, _ | ⟨e2, rest⟩⟩
    · simp at h3
    · simp at h3
    · rfl
  · intro t
    simp [runPipeline, List.foldl_append]

/-- C7 witness: with a concrete counting interpretation, zero names give the
identity, `["crop"]` gives the single crop entry, and `["crop", "float"]`
gives the two-element composition obeying the fold and snoc laws. -/
theorem get_transforms_spec_witness :
    (get_transforms [] = Except.ok Pipeline.identity
      ∧ runPipeline (fun _ m => m + 1) Pipeline.identity 0 = 0)
    ∧ (get_transforms ["crop"] = Except.ok (Pipeline.single (RegEntry.crop 64 64))
      ∧ runPipeline (fun _ m => m + 1) (Pipeline.single (RegEntry.crop 64 64)) 0
          = (fun _ m => m + 1) (RegEntry.crop 64 64) 0)
    ∧ (get_transforms ["crop", "float"]
        = Except.ok (Pipeline.composed [RegEntry.crop 64 64, RegEntry.float])
      ∧ runPipeline (fun _ m => m + 1)
            (Pipeline.composed [RegEntry.crop 64 64, RegEntry.float]) 0
          = [RegEntry.crop 64 64, RegEntry.float].foldl
              (fun acc t => (fun _ m => m + 1) t acc) 0
      ∧ ∀ t, runPipeline (fun _ m => m + 1)
            (Pipeline.composed ([RegEntry.crop 64 64, RegEntry.float] ++ [t])) 0
          = (fun _ m => m + 1) t (runPipeline (fun _ m => m + 1)
              (Pipeline.composed [RegEntry.crop 64 64, RegEntry.float]) 0)) :=
  get_transforms_spec (fun _ m => m + 1) 0 "crop" (RegEntry.crop 64 64)
    ["crop", "float"] [RegEntry.crop 64 64, RegEntry.float] rfl rfl (by simp)

/-- C8: any call whose name list contains a key outside the fixed registry
fails at composition time with the unknown-transform error — the composer
returns no pipeline at all, so no transform is ever applied and nothing is
deferred to per-sample access time. -/
theorem get_transforms_unknown_error (names : List String) (n : String)
    (hmem : n ∈ names) (hlook : TRANSFORMS.lookup n = none) :
    ∃ msg, get_transforms names = Except.error msg := by
  obtain ⟨msg, hmsg⟩ := resolveTfms_unknown names n hmem hlook
  refine ⟨msg, ?_⟩
  have hne : ¬ names.length = 0 := by
    cases names
    · exact absurd hmem (by simp)
    · simp
  unfold get_transforms
  rw [if_neg hne, hmsg]

/-- C8 witness: `get_transforms("sharpen")` raises. -/
theorem get_transforms_unknown_error_witness :
    ∃ msg, get_transforms ["sharpen"] = Except.error msg :=
  get_transforms_unknown_error ["sharpen"] "sharpen" (by simp) rfl

/-- C6: the `noise` registry entry is `GaussianNoise(p=0.5, sigma=(10,12))`,
and its call either (when the drawn coin is below `p = 1/2`) adds to every
pixel the value drawn by the zero-mean Gaussian sampler invoked with standard
deviation `|mean(sample)| / snr` — with `snr = torch.randint(10, 12)` an
integer in the half-open range `[10, 12)`, and the drawn noise passed through
the uint8 cast before addition when the sample dtype is uint8 — or (when the
coin is at least `p`) returns the sample unchanged. -/
theorem noise_transform_spec {ι : Type} [Fintype ι] (cfg : GaussianNoiseCfg)
    (isUint8 : Bool) (castU8 : ℚ → ℚ) (coin : ℚ) (rint : ℕ)
    (normalDraw : ℚ → ι → ℚ) (sample : ι → ℚ)
    (h : TRANSFORMS.lookup "noise" = some (RegEntry.noise cfg)) :
    GaussianNoise.call cfg isUint8 castU8 coin rint normalDraw sample
      = (if coin < (1 : ℚ)/2 then
          (fun i => sample i +
            (if isUint8 then
              castU8 (normalDraw
                (|tensorMean sample| / (torchRandint 10 12 rint : ℚ)) i)
            else normalDraw
                (|tensorMean sample| / (torchRandint 10 12 rint : ℚ)) i))
        else sample)
    ∧ 10 ≤ torchRandint 10 12 rint ∧ torchRandint 10 12 rint < 12 := by
  have hcfg : cfg = ⟨1/2, SigmaArg.range 10 12⟩ := by
    rw [show TRANSFORMS.lookup "noise"
        = some (RegEntry.noise ⟨1/2, SigmaArg.range 10 12⟩) from rfl] at h
    simp only [Option.some.injEq, RegEntry.noise.injEq] at h
    exact h.symm
  subst hcfg
  refine ⟨?_, ?_, ?_⟩
  · cases isUint8 <;> simp [GaussianNoise.call]
  · unfold torchRandint
    omega
  · unfold torchRandint
    omega

/-- C6 witness: a constant uint8 sample of value 4 on a single pixel, coin
draw 0, randint draw giving `snr = 11`: the output adds `|4|/11` per pixel
and the sampled snr lies in `[10, 12)`. -/
theorem noise_transform_spec_witness :
    GaussianNoise.call (ι := Fin 1) ⟨1/2, SigmaArg.range 10 12⟩ true (fun q => q)
        0 1 (fun s _ => s) (fun _ => 4)
      = (fun _ => 4 + |(4 : ℚ)| / 11)
    ∧ 10 ≤ torchRandint 10 12 1 ∧ torchRandint 10 12 1 < 12 := by
  have h := noise_transform_spec (ι := Fin 1) ⟨1/2, SigmaArg.range 10 12⟩ true
    (fun q => q) 0 1 (fun s _ => s) (fun _ => 4) rfl
  refine ⟨?_, h.2⟩
  rw [h.1]
  have hr : torchRandint 10 12 1 = 11 := rfl
  rw [if_pos (by norm_num), hr]
  funext i
  simp [tensorMean]

theorem spatialStd_eq_zero_of_card_le_one {ι : Type} [Fintype ι] {h w : ℕ}
    (y : ι → Fin h → Fin w → ℝ) (b : ι) (hle : h * w ≤ 1) :
    spatialStd y b = 0 := by
  rcases Nat.le_one_iff_eq_zero_or_eq_one.mp hle with h0 | h1
  · have hz : (∑ i, ∑ j, (y b i j - spatialMean y b) ^ 2) = 0 := by
      rcases Nat.mul_eq_zero.mp h0 with hh | hw
      · subst hh
        simp
      · subst hw
        simp
    unfold spatialStd
    rw [hz, zero_div, Real.sqrt_zero]
  · unfold spatialStd
    rw [h1]
    norm_num

theorem sum_centered_eq_zero {ι : Type} [Fintype ι] {h w : ℕ}
    (x : ι → Fin h → Fin w → ℝ) (b : ι) (hn : h * w ≠ 0) :
    (∑ i, ∑ j, Norm.centered x b i j) = 0 := by
  have hsplit : (∑ i, ∑ j, Norm.centered x b i j)
      = (∑ i, ∑ j, x b i j) - (h * w : ℕ) * spatialMean x b := by
    unfold Norm.centered
    simp [Finset.sum_sub_distrib, Finset.sum_const, Finset.card_univ, mul_comm,
      mul_assoc]
    ring
  rw [hsplit]
  unfold spatialMean
  have hnr : ((h : ℝ) * (w : ℝ)) ≠ 0 := by
    have hcast : ((h * w : ℕ) : ℝ) ≠ 0 := Nat.cast_ne_zero.mpr hn
    push_cast at hcast
    exact hcast
  push_cast
  field_simp

theorem spatialMean_centered_eq_zero {ι : Type} [Fintype ι] {h w : ℕ}
    (x : ι → Fin h → Fin w → ℝ) (b : ι) (hn : h * w ≠ 0) :
    spatialMean (Norm.centered x) b = 0 := by
  unfold spatialMean
  rw [sum_centered_eq_zero x b hn, zero_div]

/-- C5: for a tensor of any rank whose trailing two axes are spatial —
the leading (batch/channel) axes collapsed into the arbitrary index type
`ι` — the `norm` transform with scaling enabled produces, for every sample
`b`, an output with spatial mean exactly 0 and spatial standard deviation
exactly 1, provided the centered sample has nonzero spatial standard
deviation (otherwise the division is degenerate, matching the float
tolerance caveat of the claim). -/
theorem norm_mean_zero_std_one {ι : Type} [Fintype ι] {h w : ℕ}
    (x : ι → Fin h → Fin w → ℝ) (b : ι)
    (hstd : spatialStd (Norm.centered x) b ≠ 0) :
    spatialMean (Norm.call true x) b = 0 ∧ spatialStd (Norm.call true x) b = 1 := by
  have hn2 : 2 ≤ h * w := by
    by_contra hlt
    push_neg at hlt
    exact hstd (spatialStd_eq_zero_of_card_le_one (Norm.centered x) b (by omega))
  have hn : h * w ≠ 0 := by omega
  have hnr : ((h * w : ℕ) : ℝ) ≠ 0 := Nat.cast_ne_zero.mpr hn
  have hsum : (∑ i, ∑ j, Norm.centered x b i j) = 0 := sum_centered_eq_zero x b hn
  have hm : spatialMean (Norm.centered x) b = 0 := spatialMean_centered_eq_zero x b hn
  have hcall : Norm.call true x
      = fun b2 i j => Norm.centered x b2 i j / spatialStd (Norm.centered x) b2 := by
    unfold Norm.call
    rw [if_pos rfl]
  have hV0 : 0 ≤ (∑ i, ∑ j, (Norm.centered x b i j) ^ 2)
      / (((h * w : ℕ) : ℝ) - 1) := by
    apply div_nonneg
    · apply Finset.sum_nonneg
      intro i _
      apply Finset.sum_nonneg
      intro j _
      exact sq_nonneg _
    · have h2r : (2 : ℝ) ≤ ((h * w : ℕ) : ℝ) := by exact_mod_cast hn2
      linarith
  have hc : spatialStd (Norm.centered x) b
      = Real.sqrt ((∑ i, ∑ j, (Norm.centered x b i j) ^ 2)
          / (((h * w : ℕ) : ℝ) - 1)) := by
    unfold spatialStd
    rw [hm]
    simp
  have hcsq : (spatialStd (Norm.centered x) b) ^ 2
      = (∑ i, ∑ j, (Norm.centered x b i j) ^ 2) / (((h * w : ℕ) : ℝ) - 1) := by
    rw [hc]
    exact Real.sq_sqrt hV0
  have hmean0 : spatialMean (Norm.call true x) b = 0 := by
    rw [hcall]
    unfold spatialMean
    simp only [← Finset.sum_div]
    rw [hsum]
    simp
  refine ⟨hmean0, ?_⟩
  unfold spatialStd
  rw [hmean0, hcall]
  simp only [sub_zero, div_pow, ← Finset.sum_div]
  rw [div_right_comm]
  rw [← hcsq]
  rw [div_self (pow_ne_zero 2 hstd)]
  exact Real.sqrt_one

/-- C5 witness: the 1×1×2 sample with pixel values `(0, 1)` has nonzero
spatial deviation, and after `norm` its spatial mean is 0 and its spatial
standard deviation is 1. -/
theorem norm_mean_zero_std_one_witness :
    spatialMean (Norm.call true
        (fun (_ : Fin 1) (_ : Fin 1) (j : Fin 2) => (j : ℝ))) 0 = 0
    ∧ spatialStd (Norm.call true
        (fun (_ : Fin 1) (_ : Fin 1) (j : Fin 2) => (j : ℝ))) 0 = 1 :=
  norm_mean_zero_std_one _ 0 (by
    have hmx : spatialMean (fun (_ : Fin 1) (_ : Fin 1) (j : Fin 2) => (j : ℝ)) 0
        = 1/2 := by
      unfold spatialMean
      norm_num [Fin.sum_univ_two]
    have hmc : spatialMean (Norm.centered
        (fun (_ : Fin 1) (_ : Fin 1) (j : Fin 2) => (j : ℝ))) 0 = 0 :=
      spatialMean_centered_eq_zero _ 0 (by norm_num)
    unfold spatialStd
    rw [hmc]
    rw [Real.sqrt_ne_zero']
    unfold Norm.centered
    rw [hmx]
    norm_num [Fin.sum_univ_two])

end Lmcontrol
